import Mathlib

/-!
Verification of the response formatter and the chat endpoint of
`student_learning_agent/my_agent/agent.py`.

Strings are modelled as `List Char`; the Python string operations used by the
source (`strip`, `replace`, `split('\n')`, `split('.', 1)`, `split()`,
`join`, `startswith`, indexing) are given explicit executable definitions on
`List Char`, restricted to the ASCII character classes that the source's
inputs exercise.
-/

namespace StudentAgent

/-- ASCII whitespace, the fragment of Python's `str.strip` / `str.split`
whitespace class used here. -/
def pyIsSpace (c : Char) : Bool :=
  c = ' ' || c = '\t' || c = '\n' || c = '\r' || c = '\x0b' || c = '\x0c'

/-- ASCII digit, the fragment of Python's `str.isdigit` used here. -/
def pyIsDigit (c : Char) : Bool :=
  '0' ≤ c && c ≤ '9'

/-- Python `str.strip()`: drop leading and trailing whitespace
(agent.py lines 244 and 257). -/
def pyStrip (l : List Char) : List Char :=
  ((l.dropWhile pyIsSpace).reverse.dropWhile pyIsSpace).reverse

/-- Python `str.replace(ab, "")` for a two-character pattern `[a, b]`:
remove every non-overlapping occurrence, scanning left to right
(agent.py lines 247-248). The scan keeps the previous still-unmatched
character as an `Option Char` so the recursion is structural. -/
def removePairAux (a b : Char) : Option Char → List Char → List Char
  | none, [] => []
  | some p, [] => [p]
  | none, c :: rest => removePairAux a b (some c) rest
  | some p, c :: rest =>
    if p = a ∧ c = b then removePairAux a b none rest
    else p :: removePairAux a b (some c) rest

def removePair (a b : Char) (l : List Char) : List Char :=
  removePairAux a b none l

/-- Python `str.split('\n')`: cut at every newline, keeping empty pieces
(agent.py line 252). -/
def splitNl : List Char → List (List Char)
  | [] => [[]]
  | c :: rest =>
    if c = '\n' then [] :: splitNl rest
    else
      match splitNl rest with
      | l :: ls => (c :: l) :: ls
      | [] => [[c]]

/-- Everything after the first `'.'`: the second field of Python
`str.split('.', 1)` when a dot is present (agent.py line 269). -/
def afterDot : List Char → List Char
  | [] => []
  | c :: rest => if c = '.' then rest else afterDot rest

/-- Python `str.split('.', 1)`: one or two fields (agent.py line 269). -/
def splitDotOnce (l : List Char) : List (List Char) :=
  if l.contains '.' then [l.takeWhile (fun c => c != '.'), afterDot l] else [l]

/-- Per-line cleanup of agent.py lines 265-272, applied to the already
stripped line: strip a leading `digit...'.'` ordinal marker when the dot sits
in the first three characters, else drop a leading bullet. -/
def cleanLine (l : List Char) : List Char :=
  match l with
  | [] => []
  | c :: rest =>
    if pyIsDigit c && (l.take 3).contains '.' then
      if l.contains '.' then pyStrip (afterDot l) else l
    else if c = '•' || c = '-' then pyStrip rest
    else l

/-- The line walk of agent.py lines 253-278: accumulate cleaned non-blank
lines into the current section `cur`; a blank line closes a nonempty current
section. Sections are kept as lists of fragments; the source stores them
space-joined, which `joinSep [' ']` reproduces below. -/
def walkLines : List (List Char) → List (List Char) → List (List (List Char))
  | [], cur => if cur = [] then [] else [cur]
  | line :: rest, cur =>
    let stripped := pyStrip line
    if stripped = [] then
      if cur = [] then walkLines rest []
      else cur :: walkLines rest []
    else walkLines rest (cur ++ [cleanLine stripped])

/-- Python `sep.join(xs)` (agent.py lines 262, 278, 281, 284). -/
def joinSep (sep : List Char) : List (List Char) → List Char
  | [] => []
  | [x] => x
  | x :: y :: ys => x ++ sep ++ joinSep sep (y :: ys)

/-- Accumulator form of Python `str.split()` with no argument: tokens are the
maximal whitespace-free runs, empties dropped. -/
def pyWordsAux : List Char → List Char → List (List Char)
  | [], acc => if acc = [] then [] else [acc.reverse]
  | c :: rest, acc =>
    if pyIsSpace c then
      if acc = [] then pyWordsAux rest []
      else acc.reverse :: pyWordsAux rest []
    else pyWordsAux rest (c :: acc)

/-- Python `str.split()` with no argument (agent.py line 284). -/
def pyWords (l : List Char) : List (List Char) :=
  pyWordsAux l []

/-- `' '.join(result.split())`: collapse whitespace runs to single spaces
(agent.py line 284). -/
def collapseWs (l : List Char) : List Char :=
  joinSep [' '] (pyWords l)

/-- agent.py lines 241-286: `format_agent_response`, on `List Char`. -/
def formatChars (text : List Char) : List Char :=
  let t0 := pyStrip text
  let t1 := removePair '*' '*' t0
  let t2 := removePair '#' '#' t1
  let t3 := t2.filter (fun c => c != '*')
  let secs := walkLines (splitNl t3) []
  let result := joinSep [' ', '|', ' '] (secs.map (joinSep [' ']))
  collapseWs result

/-- agent.py lines 241-286: `format_agent_response`, on `String`. -/
def format_agent_response (s : String) : String :=
  ⟨formatChars s.data⟩

/-! ### The `POST /chat` endpoint (agent.py lines 175-238) -/

/-- agent.py lines 175-177: the request body of `POST /chat`. -/
structure ChatRequest where
  prompt : String
  user_id : String
deriving DecidableEq

/-- One role-tagged message of the `contents` list sent to the gateway
(agent.py lines 214-223; each entry carries one text part). -/
structure Message where
  role : String
  text : String
deriving DecidableEq

/-- agent.py line 34. -/
def MODEL_NAME : String := "gemini-2.5-flash-lite"

/-- agent.py lines 202-208: the fixed system instruction. -/
def system_instruction : String :=
  "You are a helpful learning assistant. When responding:\n1. Start with a concise, actionable insight or answer (max 2-3 sentences)\n2. If providing steps, use numbered lists with bullet points\n3. End with a brief motivational note\n4. Keep language simple and encouraging\n5. Format with clear sections using ** for emphasis\n6. Make content scannable and easy to read"

/-- agent.py lines 212-224: the `contents` argument built for
`generate_content` — the system instruction and the request prompt, both with
role "user". -/
def chatContents (req : ChatRequest) : List Message :=
  [⟨"user", system_instruction⟩, ⟨"user", req.prompt⟩]

/-- The JSON body and status code returned by the `/chat` handler. The
success dict of agent.py line 233 has no "error" key, modelled as `none`;
the failure dict of line 238 sets it to true. FastAPI serves both with its
default status 200. -/
structure ChatResponse where
  response : String
  error : Option Bool
  status : Nat
deriving DecidableEq

/-- agent.py lines 187-238: the `POST /chat` handler, with the gateway call
(`client.models.generate_content` followed by `.text` extraction) abstracted
as a function from the model name and contents to either a text result or
the message of a raised exception. -/
def chat (gw : String → List Message → Except String String)
    (req : ChatRequest) : ChatResponse :=
  match gw MODEL_NAME (chatContents req) with
  | .ok text => { response := format_agent_response text, error := none, status := 200 }
  | .error e => { response := "Error: " ++ e, error := some true, status := 200 }

/-! ### Index-checked variant of the formatter

Python raises `IndexError` on out-of-range indexing; `cleaned[0]` (line 267)
and `split('.', 1)[1]` (line 269) are the only subscripts in
`format_agent_response`. The checked variant returns `none` exactly where
such a subscript would be out of range, so totality of the source is the
statement that it always returns `some`. -/

/-- agent.py lines 265-272 with both subscripts checked: `cleaned[0]`
becomes `head?` and `split('.', 1)[1]` becomes `get? 1`. -/
def cleanLineChecked (l : List Char) : Option (List Char) :=
  match l.head? with
  | none => none
  | some c =>
    if pyIsDigit c && (l.take 3).contains '.' then
      if l.contains '.' then
        match (splitDotOnce l).get? 1 with
        | none => none
        | some second => some (pyStrip second)
      else some l
    else if c = '•' || c = '-' then some (pyStrip l.tail)
    else some l

/-- agent.py lines 253-278 with the checked per-line cleanup. -/
def walkLinesChecked : List (List Char) → List (List Char) →
    Option (List (List (List Char)))
  | [], cur => some (if cur = [] then [] else [cur])
  | line :: rest, cur =>
    let stripped := pyStrip line
    if stripped = [] then
      if cur = [] then walkLinesChecked rest []
      else
        match walkLinesChecked rest [] with
        | none => none
        | some tailSecs => some (cur :: tailSecs)
    else
      match cleanLineChecked stripped with
      | none => none
      | some c => walkLinesChecked rest (cur ++ [c])

/-- agent.py lines 241-286 with every subscript checked. -/
def formatCharsChecked (text : List Char) : Option (List Char) :=
  let t0 := pyStrip text
  let t1 := removePair '*' '*' t0
  let t2 := removePair '#' '#' t1
  let t3 := t2.filter (fun c => c != '*')
  match walkLinesChecked (splitNl t3) [] with
  | none => none
  | some secs =>
    some (collapseWs (joinSep [' ', '|', ' '] (secs.map (joinSep [' ']))))

/-! ### Occurrences of a two-character pattern, and marker-free lines -/

/-- Whether the two-character pattern [a, b] occurs in the pending character
(if any) followed by the list. -/
def hasPairAux (a b : Char) : Option Char → List Char → Bool
  | _, [] => false
  | none, c :: rest => hasPairAux a b (some c) rest
  | some p, c :: rest =>
    if p = a ∧ c = b then true else hasPairAux a b (some c) rest

/-- Whether the two-character pattern [a, b] occurs in l. -/
def hasPair (a b : Char) (l : List Char) : Bool :=
  hasPairAux a b none l

/-- Whether a (single) line triggers neither the ordinal-prefix rule nor the
bullet rule of the per-line cleanup (agent.py lines 267 and 270). -/
def noMarkerLine (l : List Char) : Bool :=
  match l with
  | [] => true
  | c :: _ =>
    !(pyIsDigit c && (l.take 3).contains '.') && !(c = '•' || c = '-')

/-! ### The spec's test vectors -/

example : format_agent_response "" = "" := by decide
example : format_agent_response "   \n  " = "" := by decide
example : format_agent_response "**Hello** world" = "Hello world" := by decide
example : format_agent_response "1. First step\n2. Second step" = "First step Second step" := by
  decide
example : format_agent_response "Para one.\n\nPara two." = "Para one. | Para two." := by decide
example : format_agent_response "- item a\n- item b" = "item a item b" := by decide
example : format_agent_response "10. ok\n100. not stripped" = "ok 100. not stripped" := by decide
example : format_agent_response "a\n\n\nb\n\n" = "a | b" := by decide
example : formatCharsChecked "1. a\n\n- b".data = some (formatChars "1. a\n\n- b".data) := by
  decide

/-! ### Helper lemmas -/

theorem mem_of_contains_take {l : List Char} {n : Nat} {a : Char}
    (h : (l.take n).contains a = true) : a ∈ l := by
  exact List.take_subset n l (by simpa using h)

theorem contains_of_contains_take {l : List Char} {n : Nat} {a : Char}
    (h : (l.take n).contains a = true) : l.contains a = true := by
  simpa using mem_of_contains_take h

theorem walkLines_ne_nil (lines : List (List Char)) :
    ∀ cur g, g ∈ walkLines lines cur → g ≠ [] := by
  induction lines with
  | nil =>
    intro cur g hg
    by_cases h : cur = [] <;> simp [walkLines, h] at hg
    simp [hg, h]
  | cons line rest ih =>
    intro cur g hg
    simp only [walkLines] at hg
    by_cases hb : pyStrip line = []
    · rw [if_pos hb] at hg
      by_cases hc : cur = []
      · rw [if_pos hc] at hg
        exact ih [] g hg
      · rw [if_neg hc] at hg
        rcases List.mem_cons.mp hg with h1 | h2
        · rw [h1]; exact hc
        · exact ih [] g h2
    · rw [if_neg hb] at hg
      exact ih _ g hg

theorem splitDotOnce_get_one {l : List Char} (h : l.contains '.' = true) :
    (splitDotOnce l).get? 1 = some (afterDot l) := by
  unfold splitDotOnce
  rw [if_pos h]
  rfl

theorem cleanLineChecked_eq {l : List Char} (h : l ≠ []) :
    cleanLineChecked l = some (cleanLine l) := by
  cases l with
  | nil => exact absurd rfl h
  | cons c rest =>
    simp only [cleanLineChecked, cleanLine, List.head?]
    split_ifs with hA hB
    · rw [splitDotOnce_get_one hB]
    · rfl
    · rfl
    · rfl

theorem walkLinesChecked_eq (lines : List (List Char)) :
    ∀ cur, walkLinesChecked lines cur = some (walkLines lines cur) := by
  induction lines with
  | nil => intro cur; rfl
  | cons line rest ih =>
    intro cur
    by_cases hb : pyStrip line = []
    · by_cases hc : cur = [] <;>
        simp [walkLinesChecked, walkLines, hb, hc, ih]
    · simp [walkLinesChecked, walkLines, hb, cleanLineChecked_eq hb, ih]

/-! ### Claims -/

/-- C1: the formatter accumulates consecutive non-blank lines into sections,
a blank line closing the current section, all sections being joined with
" | "; no empty section is ever emitted by the walk, so consecutive or
trailing blank lines produce no empty segment next to the delimiter. -/
theorem C1_section_grouping :
    (∀ (lines cur g : List (List Char)), g ∈ walkLines lines cur → g ≠ []) ∧
    (∀ s : String, format_agent_response s =
      ⟨collapseWs (joinSep [' ', '|', ' ']
        ((walkLines (splitNl ((removePair '#' '#'
            (removePair '*' '*' (pyStrip s.data))).filter (fun c => c != '*')))
          []).map (joinSep [' '])))⟩) ∧
    format_agent_response "a\n\n\nb\n\n" = "a | b" ∧
    format_agent_response "one\ntwo\n\nthree" = "one two | three" :=
  ⟨fun lines cur g => walkLines_ne_nil lines cur g,
   fun _ => rfl, by decide, by decide⟩

theorem C1_section_grouping_witness :
    ([['a']] : List (List Char)) ≠ [] :=
  C1_section_grouping.1 [['a']] [] [['a']] (by decide)

/-- C2: a non-blank line whose first character is an ASCII digit and whose
first three characters contain a '.' is stripped up to and past that first
dot and trimmed; "100. Item" has its dot at index 3 and is left alone, and
format "10. ok\n100. not stripped" = "ok 100. not stripped". -/
theorem C2_digit_dot_rule :
    (∀ (c : Char) (rest : List Char),
        pyIsDigit c = true →
        ((c :: rest).take 3).contains '.' = true →
        cleanLine (c :: rest) = pyStrip (afterDot (c :: rest))) ∧
    cleanLine "100. Item".data = "100. Item".data ∧
    format_agent_response "10. ok\n100. not stripped" = "ok 100. not stripped" := by
  refine ⟨?_, by decide, by decide⟩
  intro c rest h1 h2
  have h3 : (c :: rest).contains '.' = true := contains_of_contains_take h2
  simp only [cleanLine]
  rw [if_pos (show (pyIsDigit c && ((c :: rest).take 3).contains '.') = true by
        rw [h1, h2]; rfl), if_pos h3]

theorem C2_digit_dot_rule_witness :
    cleanLine ('1' :: "0. ok".data) = pyStrip (afterDot ('1' :: "0. ok".data)) :=
  C2_digit_dot_rule.1 '1' "0. ok".data (by decide) (by decide)

/-- C3: a non-blank line that fails the digit rule but starts with '•' or
'-' loses that one character and is trimmed; a lone bullet becomes the empty
fragment and contributes nothing to the output. -/
theorem C3_bullet_rule :
    (∀ (c : Char) (rest : List Char),
        (pyIsDigit c && ((c :: rest).take 3).contains '.') = false →
        (c = '•' || c = '-') = true →
        cleanLine (c :: rest) = pyStrip rest) ∧
    cleanLine ['-'] = [] ∧
    cleanLine ['•'] = [] ∧
    format_agent_response "- item a\n- item b" = "item a item b" ∧
    format_agent_response "x\n-\ny" = "x y" := by
  refine ⟨?_, by decide, by decide, by decide, by decide⟩
  intro c rest h1 h2
  simp only [cleanLine]
  rw [if_neg (show ¬ (pyIsDigit c && ((c :: rest).take 3).contains '.') = true by
        rw [h1]; exact Bool.false_ne_true), if_pos h2]

theorem C3_bullet_rule_witness :
    cleanLine ('-' :: " item a".data) = pyStrip " item a".data :=
  C3_bullet_rule.1 '-' " item a".data (by decide) (by decide)

/-- C4: when the gateway call raises, the endpoint answers HTTP 200 with
body response = "Error: " ++ message and error = true; the response string
begins with "Error: ". -/
theorem C4_gateway_failure (req : ChatRequest) (msg : String)
    (gw : String → List Message → Except String String)
    (h : gw MODEL_NAME (chatContents req) = .error msg) :
    chat gw req =
      { response := "Error: " ++ msg, error := some true, status := 200 } ∧
    (chat gw req).response.data.take 7 = "Error: ".data := by
  have h1 : chat gw req =
      { response := "Error: " ++ msg, error := some true, status := 200 } := by
    simp [chat, h]
  refine ⟨h1, ?_⟩
  rw [h1]
  show (("Error: " : String) ++ msg).data.take 7 = "Error: ".data
  rw [String.data_append]
  exact List.take_left "Error: ".data msg.data

theorem C4_gateway_failure_witness :
    chat (fun _ _ => Except.error "boom") ⟨"p", "u"⟩ =
      { response := "Error: " ++ "boom", error := some true, status := 200 } :=
  (C4_gateway_failure ⟨"p", "u"⟩ "boom" (fun _ _ => Except.error "boom") rfl).1

/-- C5: the formatter is total — the index-checked variant, which returns
`none` exactly where the source's subscripts `cleaned[0]` and
`split('.', 1)[1]` would raise, always returns `some` of the formatter's
value, for every input string. -/
theorem C5_formatter_total (s : String) :
    formatCharsChecked s.data = some (formatChars s.data) := by
  simp [formatCharsChecked, formatChars, walkLinesChecked_eq]

/-- C8: an input consisting only of whitespace, the empty string included,
formats to the empty string. -/
theorem C8_whitespace_only :
    (∀ s : String, (∀ c ∈ s.data, pyIsSpace c = true) →
      format_agent_response s = "") ∧
    format_agent_response "" = "" ∧
    format_agent_response "   \n  " = "" := by
  refine ⟨?_, by decide, by decide⟩
  intro s h
  have h1 : s.data.dropWhile pyIsSpace = [] :=
    List.dropWhile_eq_nil_iff.mpr fun x hx => h x hx
  have h0 : pyStrip s.data = [] := by simp [pyStrip, h1]
  show (⟨formatChars s.data⟩ : String) = ""
  simp [formatChars, h0]
  rfl

theorem C8_whitespace_only_witness :
    format_agent_response " \t " = "" :=
  C8_whitespace_only.1 " \t " (by decide)

/-- C6 counterexample: the gateway request built by the handler is identical
for two requests that differ only in their user identifier, and consists of
the fixed system instruction and the prompt alone — the user identifier is
not sent to the gateway (agent.py only logs it). -/
theorem C6_user_id_not_forwarded :
    chatContents { prompt := "p", user_id := "zqxw" } =
      chatContents { prompt := "p", user_id := "other" } ∧
    chatContents { prompt := "p", user_id := "zqxw" } =
      [⟨"user", system_instruction⟩, ⟨"user", "p"⟩] :=
  ⟨rfl, rfl⟩

/-- C6 (amended): on success the prompt is sent verbatim to the gateway
together with the fixed system instruction (the user identifier is not
forwarded), and the response body is the formatter applied to the gateway
result's text. -/
theorem C6_success_path :
    (∀ (req : ChatRequest) (gw : String → List Message → Except String String)
        (text : String),
        gw MODEL_NAME (chatContents req) = .ok text →
        chat gw req =
          { response := format_agent_response text, error := none, status := 200 }) ∧
    (∀ req : ChatRequest,
        chatContents req = [⟨"user", system_instruction⟩, ⟨"user", req.prompt⟩]) := by
  refine ⟨?_, fun req => rfl⟩
  intro req gw text h
  simp [chat, h]

theorem C6_success_path_witness :
    chat (fun _ _ => Except.ok "**Hi**") ⟨"p", "u"⟩ =
      { response := format_agent_response "**Hi**", error := none, status := 200 } :=
  C6_success_path.1 ⟨"p", "u"⟩ (fun _ _ => Except.ok "**Hi**") "**Hi**" rfl

theorem hasPairAux_of_ne {a b p : Char} (m : List Char) (hp : p ≠ a) :
    hasPairAux a b (some p) m = hasPairAux a b none m := by
  cases m with
  | nil => rfl
  | cons c rest =>
    simp only [hasPairAux]
    rw [if_neg (fun hc => hp hc.1)]

theorem removePairAux_head {a b c : Char} (l : List Char) (hc : c ≠ a) :
    removePairAux a b (some c) l = c :: (removePairAux a b (some c) l).tail := by
  cases l with
  | nil => rfl
  | cons d rest =>
    simp only [removePairAux]
    rw [if_neg (fun hd => hc hd.1)]
    rfl

theorem removePair_no_pair (a : Char) :
    ∀ l : List Char,
      hasPairAux a a none (removePairAux a a none l) = false ∧
      ∀ p, hasPairAux a a none (removePairAux a a (some p) l) = false := by
  intro l
  induction l with
  | nil => exact ⟨rfl, fun p => rfl⟩
  | cons c rest ih =>
    refine ⟨ih.2 c, ?_⟩
    intro p
    simp only [removePairAux]
    by_cases hm : p = a ∧ c = a
    · rw [if_pos hm]
      exact ih.1
    · rw [if_neg hm]
      show hasPairAux a a (some p) (removePairAux a a (some c) rest) = false
      by_cases hp : p = a
      · have hc : c ≠ a := fun hc0 => hm ⟨hp, hc0⟩
        rw [removePairAux_head rest hc]
        simp only [hasPairAux]
        rw [if_neg hm]
        have h9 : hasPairAux a a (some c) (removePairAux a a (some c) rest).tail =
            hasPairAux a a none (c :: (removePairAux a a (some c) rest).tail) := rfl
        rw [h9, ← removePairAux_head rest hc]
        exact ih.2 c
      · rw [hasPairAux_of_ne _ hp]
        exact ih.2 c

theorem hasPairAux_false_of_no_fst {a b : Char} :
    ∀ l : List Char, (∀ c ∈ l, c ≠ a) →
      hasPairAux a b none l = false ∧
      ∀ p, p ≠ a → hasPairAux a b (some p) l = false := by
  intro l
  induction l with
  | nil => exact fun _ => ⟨rfl, fun p _ => rfl⟩
  | cons c rest ih =>
    intro h
    have hc : c ≠ a := h c (List.mem_cons_self c rest)
    have hrest := ih fun x hx => h x (List.mem_cons_of_mem c hx)
    refine ⟨(hrest.2 c hc), ?_⟩
    intro p hp
    simp only [hasPairAux]
    rw [if_neg (fun hx => hp hx.1)]
    exact hrest.2 c hc

theorem removePairAux_of_no_pair {a b : Char} :
    ∀ l : List Char,
      (hasPairAux a b none l = false → removePairAux a b none l = l) ∧
      (∀ p, hasPairAux a b (some p) l = false →
        removePairAux a b (some p) l = p :: l) := by
  intro l
  induction l with
  | nil => exact ⟨fun _ => rfl, fun p _ => rfl⟩
  | cons c rest ih =>
    constructor
    · intro h
      exact ih.2 c h
    · intro p h
      simp only [hasPairAux] at h
      by_cases hm : p = a ∧ c = b
      · rw [if_pos hm] at h
        exact absurd h (by decide)
      · rw [if_neg hm] at h
        simp only [removePairAux]
        rw [if_neg hm]
        rw [ih.2 c h]

theorem removePair_of_no_pair {a b : Char} {l : List Char}
    (h : hasPair a b l = false) : removePair a b l = l :=
  (removePairAux_of_no_pair l).1 h

theorem removePair_of_no_fst {a b : Char} {l : List Char}
    (h : ∀ c ∈ l, c ≠ a) : removePair a b l = l :=
  removePair_of_no_pair ((hasPairAux_false_of_no_fst l h).1)

/-- C7: the formatter removes "**" pairs, then "##" pairs, then every
remaining '*', in that order, before any line processing; the pair removal
leaves no occurrence of the pattern, the star filter leaves no '*', and
format "**Hello** world" = "Hello world". -/
theorem C7_markdown_removal :
    (∀ s : String, formatChars s.data =
      collapseWs (joinSep [' ', '|', ' ']
        ((walkLines (splitNl ((removePair '#' '#'
            (removePair '*' '*' (pyStrip s.data))).filter (fun c => c != '*')))
          []).map (joinSep [' '])))) ∧
    (∀ l : List Char, hasPair '*' '*' (removePair '*' '*' l) = false) ∧
    (∀ l : List Char, (l.filter (fun c => c != '*')).contains '*' = false) ∧
    format_agent_response "**Hello** world" = "Hello world" := by
  refine ⟨fun _ => rfl, fun l => (removePair_no_pair '*' l).1, ?_, by decide⟩
  intro l
  simp [List.mem_filter]

/-! ### Character provenance through the formatter stages -/

theorem mem_pyStrip {c : Char} {l : List Char} (h : c ∈ pyStrip l) : c ∈ l := by
  unfold pyStrip at h
  rw [List.mem_reverse] at h
  have h2 := (List.dropWhile_sublist pyIsSpace).subset h
  rw [List.mem_reverse] at h2
  exact (List.dropWhile_sublist pyIsSpace).subset h2

theorem mem_afterDot {c : Char} : ∀ {l : List Char}, c ∈ afterDot l → c ∈ l := by
  intro l
  induction l with
  | nil => intro h; exact absurd h (List.not_mem_nil c)
  | cons d rest ih =>
    intro h
    simp only [afterDot] at h
    by_cases hd : d = '.'
    · rw [if_pos hd] at h
      exact List.mem_cons_of_mem d h
    · rw [if_neg hd] at h
      exact List.mem_cons_of_mem d (ih h)

theorem mem_cleanLine {c : Char} {l : List Char} (h : c ∈ cleanLine l) : c ∈ l := by
  cases l with
  | nil => simp [cleanLine] at h
  | cons d rest =>
    simp only [cleanLine] at h
    split_ifs at h
    · exact mem_afterDot (mem_pyStrip h)
    · exact h
    · exact List.mem_cons_of_mem d (mem_pyStrip h)
    · exact h

theorem splitNl_ne_nil : ∀ l : List Char, splitNl l ≠ [] := by
  intro l
  cases l with
  | nil => simp [splitNl]
  | cons c rest =>
    by_cases h : c = '\n'
    · simp [splitNl, h]
    · simp only [splitNl, if_neg h]
      cases h2 : splitNl rest <;> simp

theorem mem_splitNl {c : Char} : ∀ {l t : List Char},
    t ∈ splitNl l → c ∈ t → c ∈ l := by
  intro l
  induction l with
  | nil =>
    intro t ht hc
    simp [splitNl] at ht
    rw [ht] at hc
    exact absurd hc (List.not_mem_nil c)
  | cons d rest ih =>
    intro t ht hc
    by_cases hd : d = '\n'
    · simp only [splitNl, if_pos hd] at ht
      rcases List.mem_cons.mp ht with h1 | h2
      · rw [h1] at hc
        exact absurd hc (List.not_mem_nil c)
      · exact List.mem_cons_of_mem d (ih h2 hc)
    · simp only [splitNl, if_neg hd] at ht
      cases hs : splitNl rest with
      | nil => exact absurd hs (splitNl_ne_nil rest)
      | cons t0 ts =>
        rw [hs] at ht
        rcases List.mem_cons.mp ht with h1 | h2
        · rw [h1] at hc
          rcases List.mem_cons.mp hc with h3 | h4
          · rw [h3]
            exact List.mem_cons_self d rest
          · refine List.mem_cons_of_mem d (ih ?_ h4)
            rw [hs]
            exact List.mem_cons_self t0 ts
        · refine List.mem_cons_of_mem d (ih ?_ hc)
          rw [hs]
          exact List.mem_cons_of_mem t0 h2

theorem walkLines_frag (lines : List (List Char)) :
    ∀ cur g f, g ∈ walkLines lines cur → f ∈ g →
      f ∈ cur ∨ ∃ line ∈ lines, f = cleanLine (pyStrip line) := by
  induction lines with
  | nil =>
    intro cur g f hg hf
    by_cases hc : cur = []
    · simp [walkLines, hc] at hg
    · simp only [walkLines, if_neg hc] at hg
      have : g = cur := by simpa using hg
      left
      rw [← this]
      exact hf
  | cons line rest ih =>
    intro cur g f hg hf
    simp only [walkLines] at hg
    by_cases hb : pyStrip line = []
    · rw [if_pos hb] at hg
      by_cases hc : cur = []
      · rw [if_pos hc] at hg
        rcases ih [] g f hg hf with h1 | ⟨l2, hl2, he⟩
        · exact absurd h1 (List.not_mem_nil f)
        · exact Or.inr ⟨l2, List.mem_cons_of_mem line hl2, he⟩
      · rw [if_neg hc] at hg
        rcases List.mem_cons.mp hg with h1 | h2
        · left
          rw [← h1]
          exact hf
        · rcases ih [] g f h2 hf with h1 | ⟨l2, hl2, he⟩
          · exact absurd h1 (List.not_mem_nil f)
          · exact Or.inr ⟨l2, List.mem_cons_of_mem line hl2, he⟩
    · rw [if_neg hb] at hg
      rcases ih _ g f hg hf with h1 | ⟨l2, hl2, he⟩
      · rcases List.mem_append.mp h1 with h3 | h4
        · exact Or.inl h3
        · right
          refine ⟨line, List.mem_cons_self line rest, ?_⟩
          simpa using h4
      · exact Or.inr ⟨l2, List.mem_cons_of_mem line hl2, he⟩

theorem joinSep_cons (sep x : List Char) (xs : List (List Char)) :
    joinSep sep (x :: xs) =
      x ++ (if xs = [] then [] else sep ++ joinSep sep xs) := by
  cases xs with
  | nil => simp [joinSep]
  | cons y ys => simp [joinSep]

theorem mem_joinSep {c : Char} {sep : List Char} :
    ∀ {xs : List (List Char)}, c ∈ joinSep sep xs →
      c ∈ sep ∨ ∃ x ∈ xs, c ∈ x := by
  intro xs
  induction xs with
  | nil =>
    intro h
    simp [joinSep] at h
  | cons x ys ih =>
    intro h
    rw [joinSep_cons] at h
    rcases List.mem_append.mp h with h1 | h2
    · exact Or.inr ⟨x, List.mem_cons_self x ys, h1⟩
    · by_cases hys : ys = []
      · rw [if_pos hys] at h2
        exact absurd h2 (List.not_mem_nil c)
      · rw [if_neg hys] at h2
        rcases List.mem_append.mp h2 with h3 | h4
        · exact Or.inl h3
        · rcases ih h4 with h5 | ⟨z, hz, hcz⟩
          · exact Or.inl h5
          · exact Or.inr ⟨z, List.mem_cons_of_mem x hz, hcz⟩

/-! ### Shape of the whitespace-collapsed output -/

theorem pyWordsAux_props :
    ∀ (l acc : List Char), (∀ c ∈ acc, pyIsSpace c = false) →
      ∀ t ∈ pyWordsAux l acc,
        t ≠ [] ∧ ∀ c ∈ t, pyIsSpace c = false ∧ (c ∈ l ∨ c ∈ acc) := by
  intro l
  induction l with
  | nil =>
    intro acc hacc t ht
    by_cases h : acc = []
    · simp [pyWordsAux, h] at ht
    · simp only [pyWordsAux, if_neg h] at ht
      have ht2 : t = acc.reverse := by simpa using ht
      subst ht2
      refine ⟨by simpa using h, ?_⟩
      intro c hc
      rw [List.mem_reverse] at hc
      exact ⟨hacc c hc, Or.inr hc⟩
  | cons d rest ih =>
    intro acc hacc t ht
    simp only [pyWordsAux] at ht
    by_cases hd : pyIsSpace d = true
    · rw [if_pos hd] at ht
      by_cases h : acc = []
      · rw [if_pos h] at ht
        obtain ⟨h1, h2⟩ :=
          ih [] (fun c hc => absurd hc (List.not_mem_nil c)) t ht
        refine ⟨h1, fun c hc => ⟨(h2 c hc).1, ?_⟩⟩
        rcases (h2 c hc).2 with h3 | h4
        · exact Or.inl (List.mem_cons_of_mem d h3)
        · exact absurd h4 (List.not_mem_nil c)
      · rw [if_neg h] at ht
        rcases List.mem_cons.mp ht with h1 | h2
        · subst h1
          refine ⟨by simpa using h, ?_⟩
          intro c hc
          rw [List.mem_reverse] at hc
          exact ⟨hacc c hc, Or.inr hc⟩
        · obtain ⟨h1, h2⟩ :=
            ih [] (fun c hc => absurd hc (List.not_mem_nil c)) t h2
          refine ⟨h1, fun c hc => ⟨(h2 c hc).1, ?_⟩⟩
          rcases (h2 c hc).2 with h3 | h4
          · exact Or.inl (List.mem_cons_of_mem d h3)
          · exact absurd h4 (List.not_mem_nil c)
    · rw [if_neg hd] at ht
      have hd2 : pyIsSpace d = false := by
        cases hx : pyIsSpace d
        · rfl
        · exact absurd hx hd
      obtain ⟨h1, h2⟩ := ih (d :: acc) (by
          intro c hc
          rcases List.mem_cons.mp hc with h3 | h4
          · rw [h3]; exact hd2
          · exact hacc c h4) t ht
      refine ⟨h1, fun c hc => ⟨(h2 c hc).1, ?_⟩⟩
      rcases (h2 c hc).2 with h3 | h4
      · exact Or.inl (List.mem_cons_of_mem d h3)
      · rcases List.mem_cons.mp h4 with h5 | h6
        · rw [h5]; exact Or.inl (List.mem_cons_self d rest)
        · exact Or.inr h6

theorem pyWords_props (l : List Char) :
    ∀ t ∈ pyWords l, t ≠ [] ∧ ∀ c ∈ t, pyIsSpace c = false ∧ c ∈ l := by
  intro t ht
  obtain ⟨h1, h2⟩ :=
    pyWordsAux_props l [] (fun c hc => absurd hc (List.not_mem_nil c)) t ht
  refine ⟨h1, fun c hc => ⟨(h2 c hc).1, ?_⟩⟩
  rcases (h2 c hc).2 with h3 | h4
  · exact h3
  · exact absurd h4 (List.not_mem_nil c)

theorem goodToks_pyWords (l : List Char) :
    ∀ t ∈ pyWords l, t ≠ [] ∧ ∀ c ∈ t, pyIsSpace c = false :=
  fun t ht => ⟨(pyWords_props l t ht).1,
    fun c hc => ((pyWords_props l t ht).2 c hc).1⟩

theorem joinSep_space_head {ts : List (List Char)}
    (hts : ∀ t ∈ ts, t ≠ [] ∧ ∀ c ∈ t, pyIsSpace c = false) :
    ∀ x, (joinSep [' '] ts).head? = some x → pyIsSpace x = false := by
  intro x hx
  cases ts with
  | nil => simp [joinSep] at hx
  | cons t ts2 =>
    rw [joinSep_cons] at hx
    obtain ⟨h1, h2⟩ := hts t (List.mem_cons_self t ts2)
    cases t with
    | nil => exact absurd rfl h1
    | cons c t2 =>
      rw [List.cons_append, List.head?_cons] at hx
      injection hx with h3
      rw [← h3]
      exact h2 c (List.mem_cons_self c t2)

theorem joinSep_space_getLast {ts : List (List Char)} :
    (∀ t ∈ ts, t ≠ [] ∧ ∀ c ∈ t, pyIsSpace c = false) →
    ∀ x, (joinSep [' '] ts).getLast? = some x → pyIsSpace x = false := by
  induction ts with
  | nil =>
    intro hts x hx
    simp [joinSep] at hx
  | cons t ts2 ih =>
    intro hts x hx
    obtain ⟨h1, h2⟩ := hts t (List.mem_cons_self t ts2)
    by_cases hts2 : ts2 = []
    · subst hts2
      rw [joinSep_cons, if_pos rfl, List.append_nil] at hx
      exact h2 x (List.mem_of_mem_getLast? (Option.mem_def.mpr hx))
    · have hgood2 : ∀ t2 ∈ ts2, t2 ≠ [] ∧ ∀ c ∈ t2, pyIsSpace c = false :=
        fun u hu => hts u (List.mem_cons_of_mem t hu)
      have hJne : joinSep [' '] ts2 ≠ [] := by
        cases ts2 with
        | nil => exact absurd rfl hts2
        | cons u us =>
          rw [joinSep_cons]
          intro hz
          exact (hgood2 u (List.mem_cons_self u us)).1
            (List.append_eq_nil.mp hz).1
      cases hw : (joinSep [' '] ts2).getLast? with
      | none => exact absurd (List.getLast?_eq_none_iff.mp hw) hJne
      | some w =>
        rw [joinSep_cons, if_neg hts2, List.getLast?_append,
          List.getLast?_append, hw] at hx
        injection hx with h3
        rw [← h3]
        exact ih hgood2 w hw

theorem dropWhile_eq_self_of_head {l : List Char}
    (h : ∀ x, l.head? = some x → pyIsSpace x = false) :
    l.dropWhile pyIsSpace = l := by
  cases l with
  | nil => rfl
  | cons c rest =>
    rw [List.dropWhile_cons,
      if_neg (fun hx => by rw [h c rfl] at hx; exact Bool.false_ne_true hx)]

theorem pyStrip_eq_self {l : List Char}
    (hh : ∀ x, l.head? = some x → pyIsSpace x = false)
    (hl : ∀ x, l.getLast? = some x → pyIsSpace x = false) :
    pyStrip l = l := by
  unfold pyStrip
  rw [dropWhile_eq_self_of_head hh]
  rw [dropWhile_eq_self_of_head
    (fun x hx => hl x (by rwa [List.head?_reverse] at hx))]
  exact List.reverse_reverse l

theorem pyWordsAux_append_nonws :
    ∀ t : List Char, (∀ c ∈ t, pyIsSpace c = false) →
      ∀ l acc : List Char,
        pyWordsAux (t ++ l) acc = pyWordsAux l (t.reverse ++ acc) := by
  intro t
  induction t with
  | nil =>
    intro h l acc
    simp
  | cons c t2 ih =>
    intro h l acc
    have hc : pyIsSpace c = false := h c (List.mem_cons_self c t2)
    show pyWordsAux (c :: (t2 ++ l)) acc = _
    simp only [pyWordsAux]
    rw [if_neg (fun hx => by rw [hc] at hx; exact Bool.false_ne_true hx)]
    rw [ih (fun x hx => h x (List.mem_cons_of_mem c hx)) l (c :: acc)]
    simp [List.append_assoc]

theorem pyWords_joinSep :
    ∀ ts : List (List Char),
      (∀ t ∈ ts, t ≠ [] ∧ ∀ c ∈ t, pyIsSpace c = false) →
      pyWords (joinSep [' '] ts) = ts := by
  intro ts
  induction ts with
  | nil => intro h; rfl
  | cons t ts2 ih =>
    intro h
    obtain ⟨h1, h2⟩ := h t (List.mem_cons_self t ts2)
    unfold pyWords
    rw [joinSep_cons]
    by_cases hts2 : ts2 = []
    · rw [if_pos hts2, List.append_nil]
      have ha := pyWordsAux_append_nonws t h2 [] []
      rw [List.append_nil, List.append_nil] at ha
      rw [ha]
      simp only [pyWordsAux]
      rw [if_neg (by simpa using h1), List.reverse_reverse, hts2]
    · rw [if_neg hts2]
      rw [pyWordsAux_append_nonws t h2 ([' '] ++ joinSep [' '] ts2) []]
      show pyWordsAux (' ' :: joinSep [' '] ts2) (t.reverse ++ []) = t :: ts2
      rw [List.append_nil]
      simp only [pyWordsAux]
      rw [if_pos (by decide : pyIsSpace ' ' = true)]
      rw [if_neg (by simpa using h1), List.reverse_reverse]
      have hrec := ih (fun u hu => h u (List.mem_cons_of_mem t hu))
      unfold pyWords at hrec
      rw [hrec]

theorem collapseWs_idem (l : List Char) :
    collapseWs (collapseWs l) = collapseWs l := by
  unfold collapseWs
  rw [pyWords_joinSep (pyWords l) (goodToks_pyWords l)]

theorem chain'_of_all_nonws : ∀ {l : List Char},
    (∀ c ∈ l, pyIsSpace c = false) →
    List.Chain' (fun a b => ¬(pyIsSpace a = true ∧ pyIsSpace b = true)) l := by
  intro l
  induction l with
  | nil => intro h; exact List.chain'_nil
  | cons c rest ih =>
    intro h
    have hrest := ih fun x hx => h x (List.mem_cons_of_mem c hx)
    cases rest with
    | nil => exact List.chain'_singleton c
    | cons d rest2 =>
      rw [List.chain'_cons]
      refine ⟨?_, hrest⟩
      rintro ⟨ha, -⟩
      rw [h c (List.mem_cons_self c (d :: rest2))] at ha
      exact Bool.false_ne_true ha

theorem chain'_joinSep_space :
    ∀ ts : List (List Char),
      (∀ t ∈ ts, t ≠ [] ∧ ∀ c ∈ t, pyIsSpace c = false) →
      List.Chain' (fun a b => ¬(pyIsSpace a = true ∧ pyIsSpace b = true))
        (joinSep [' '] ts) := by
  intro ts
  induction ts with
  | nil => intro h; exact List.chain'_nil
  | cons t ts2 ih =>
    intro h
    obtain ⟨h1, h2⟩ := h t (List.mem_cons_self t ts2)
    have hgood2 : ∀ u ∈ ts2, u ≠ [] ∧ ∀ c ∈ u, pyIsSpace c = false :=
      fun u hu => h u (List.mem_cons_of_mem t hu)
    rw [joinSep_cons]
    by_cases hts2 : ts2 = []
    · rw [if_pos hts2, List.append_nil]
      exact chain'_of_all_nonws h2
    · rw [if_neg hts2, List.chain'_append]
      refine ⟨chain'_of_all_nonws h2, ?_, ?_⟩
      · rw [List.chain'_append]
        refine ⟨List.chain'_singleton ' ', ih hgood2, ?_⟩
        intro x hx y hy
        have hy2 : pyIsSpace y = false :=
          joinSep_space_head hgood2 y (Option.mem_def.mp hy)
        rintro ⟨-, hb⟩
        rw [hy2] at hb
        exact Bool.false_ne_true hb
      · intro x hx y hy
        have hx2 : x ∈ t :=
          List.mem_of_mem_getLast? hx
        rintro ⟨ha, -⟩
        rw [h2 x hx2] at ha
        exact Bool.false_ne_true ha

theorem splitNl_eq_single {l : List Char} (h : '\n' ∉ l) : splitNl l = [l] := by
  induction l with
  | nil => rfl
  | cons c rest ih =>
    have hc : c ≠ '\n' := fun he => h (he ▸ List.mem_cons_self c rest)
    have h2 : '\n' ∉ rest := fun hm => h (List.mem_cons_of_mem c hm)
    simp only [splitNl, if_neg hc]
    rw [ih h2]

theorem cleanLine_eq_self {l : List Char} (h : noMarkerLine l = true) :
    cleanLine l = l := by
  cases l with
  | nil => rfl
  | cons c rest =>
    simp only [noMarkerLine, Bool.and_eq_true] at h
    obtain ⟨ha, hb⟩ := h
    simp only [cleanLine]
    split_ifs with h1 h2 h3
    · rw [h1] at ha
      exact absurd ha (by decide)
    · rfl
    · rw [h3] at hb
      exact absurd hb (by decide)
    · rfl

/-- C10: for every input, the formatter's output contains no '*', no
newline, only ' ' as whitespace, and no two adjacent whitespace
characters. -/
theorem C10_output_shape (s : String) :
    (format_agent_response s).data.contains '*' = false ∧
    (format_agent_response s).data.contains '\n' = false ∧
    (∀ c ∈ (format_agent_response s).data, pyIsSpace c = true → c = ' ') ∧
    List.Chain' (fun a b => ¬(pyIsSpace a = true ∧ pyIsSpace b = true))
      (format_agent_response s).data := by
  obtain ⟨R, hzR⟩ : ∃ R : List Char,
      (format_agent_response s).data = joinSep [' '] (pyWords R) ∧
        R = joinSep [' ', '|', ' ']
          ((walkLines (splitNl ((removePair '#' '#' (removePair '*' '*'
            (pyStrip s.data))).filter (fun c => c != '*'))) []).map
            (joinSep [' '])) := ⟨_, rfl, rfl⟩
  obtain ⟨hz, hR⟩ := hzR
  have hstar : '*' ∉ (format_agent_response s).data := by
    intro hmem
    rw [hz] at hmem
    rcases mem_joinSep hmem with h1 | ⟨t, ht, hct⟩
    · simp at h1
    · have h2 := ((pyWords_props R t ht).2 '*' hct).2
      rw [hR] at h2
      rcases mem_joinSep h2 with h3 | ⟨x, hx, hcx⟩
      · simp at h3
      · rcases List.mem_map.mp hx with ⟨g, hg, hgx⟩
        rw [← hgx] at hcx
        rcases mem_joinSep hcx with h4 | ⟨f, hf, hcf⟩
        · simp at h4
        · rcases walkLines_frag _ [] g f hg hf with h5 | ⟨line, hline, hfe⟩
          · exact absurd h5 (List.not_mem_nil f)
          · rw [hfe] at hcf
            have h6 : '*' ∈ line := mem_pyStrip (mem_cleanLine hcf)
            have h7 := mem_splitNl hline h6
            rcases List.mem_filter.mp h7 with ⟨-, hpred⟩
            simp at hpred
  have hws : ∀ c ∈ (format_agent_response s).data, pyIsSpace c = true → c = ' ' := by
    intro c hc hcs
    rw [hz] at hc
    rcases mem_joinSep hc with h1 | ⟨t, ht, hct⟩
    · simpa using h1
    · have h2 := ((pyWords_props R t ht).2 c hct).1
      rw [h2] at hcs
      exact absurd hcs Bool.false_ne_true
  have hnl : '\n' ∉ (format_agent_response s).data := by
    intro hmem
    have := hws '\n' hmem (by decide)
    exact absurd this (by decide)
  refine ⟨by simpa using hstar, by simpa using hnl, hws, ?_⟩
  rw [hz]
  exact chain'_joinSep_space (pyWords R) (goodToks_pyWords R)

theorem C10_output_shape_witness : (' ' : Char) = ' ' :=
  (C10_output_shape "a b").2.2.1 ' ' (by decide) (by decide)

/-- C9: re-applying the formatter to an already formatted string — the
output of the formatter — that contains no '*', no "##", no digit-dot
prefix and no bullet prefix, is a no-op. -/
theorem C9_idempotent_on_formatted (y : String)
    (h1 : (format_agent_response y).data.contains '*' = false)
    (h2 : hasPair '#' '#' (format_agent_response y).data = false)
    (h3 : noMarkerLine (format_agent_response y).data = true) :
    format_agent_response (format_agent_response y) = format_agent_response y := by
  obtain ⟨R, hzR⟩ : ∃ R : List Char,
      (format_agent_response y).data = joinSep [' '] (pyWords R) := ⟨_, rfl⟩
  have hgood := goodToks_pyWords R
  have hnostar0 : '*' ∉ (format_agent_response y).data := by simpa using h1
  have hstrip : pyStrip (format_agent_response y).data =
      (format_agent_response y).data := by
    rw [hzR]
    exact pyStrip_eq_self (joinSep_space_head hgood) (joinSep_space_getLast hgood)
  have hrm1 : removePair '*' '*' (format_agent_response y).data =
      (format_agent_response y).data :=
    removePair_of_no_fst (fun c hc he => hnostar0 (he ▸ hc))
  have hrm2 : removePair '#' '#' (format_agent_response y).data =
      (format_agent_response y).data :=
    removePair_of_no_pair h2
  have hfil : (format_agent_response y).data.filter (fun c => c != '*') =
      (format_agent_response y).data :=
    List.filter_eq_self.mpr (fun a ha => by
      have hne : a ≠ '*' := fun he => hnostar0 (he ▸ ha)
      simpa using hne)
  have hnonl : '\n' ∉ (format_agent_response y).data := by
    intro hmem
    rw [hzR] at hmem
    rcases mem_joinSep hmem with hx | ⟨t, ht, hct⟩
    · simp at hx
    · exact absurd ((hgood t ht).2 '\n' hct) (by decide)
  have hsplit : splitNl (format_agent_response y).data =
      [(format_agent_response y).data] := splitNl_eq_single hnonl
  have hcore : formatChars (format_agent_response y).data =
      (format_agent_response y).data := by
    show collapseWs (joinSep [' ', '|', ' ']
      ((walkLines (splitNl ((removePair '#' '#' (removePair '*' '*'
        (pyStrip (format_agent_response y).data))).filter (fun c => c != '*')))
        []).map (joinSep [' ']))) = (format_agent_response y).data
    rw [hstrip, hrm1, hrm2, hfil, hsplit]
    by_cases hznil : (format_agent_response y).data = []
    · rw [hznil]
      rfl
    · have hwalk : walkLines [(format_agent_response y).data] [] =
          [[cleanLine (format_agent_response y).data]] := by
        simp only [walkLines]
        rw [hstrip, if_neg hznil]
        rfl
      rw [hwalk, cleanLine_eq_self h3]
      show collapseWs (format_agent_response y).data =
        (format_agent_response y).data
      rw [hzR]
      exact collapseWs_idem R
  calc format_agent_response (format_agent_response y)
      = ⟨formatChars (format_agent_response y).data⟩ := rfl
    _ = ⟨(format_agent_response y).data⟩ := by rw [hcore]
    _ = format_agent_response y := rfl

theorem C9_idempotent_on_formatted_witness :
    format_agent_response (format_agent_response "- a\n- b") =
      format_agent_response "- a\n- b" :=
  C9_idempotent_on_formatted "- a\n- b" (by decide) (by decide) (by decide)

end StudentAgent
